import Mathlib

/-!
Verification of the recycling-rules extraction and material-comparison core
(recyclingService / searchService of the RecycleLocal backend).

The JavaScript source is shallowly embedded: JS strings become `String`
(ASCII throughout), JS arrays become `List`, JS `Map`/`Set` (which preserve
insertion order) become association lists / lists with insert-if-absent,
and `undefined`/`null` become `Option`.  The web search itself is an
external collaborator, so `getRecyclingRules` takes the search-result list
as an argument.
-/

namespace RecycleLocal

/-! ## Basic string machinery (JS `includes`, `indexOf`, `slice`, `toLowerCase`) -/

/-- Does the first character list start with the second? -/
def startsWithL : List Char → List Char → Bool
  | _, [] => true
  | [], _ :: _ => false
  | a :: as, b :: bs => a == b && startsWithL as bs

/-- Is `needle` a contiguous sublist of the second argument?  Models the
substring test underlying JS `String.prototype.includes`. -/
def subList (needle : List Char) : List Char → Bool
  | [] => needle.isEmpty
  | c :: t => startsWithL (c :: t) needle || subList needle t

/-- JS `hay.includes(needle)`. -/
def strIncludes (hay needle : String) : Bool := subList needle.data hay.data

/-- JS `hay.indexOf(needle)`, as `none` instead of `-1`. -/
def idxOf : List Char → List Char → Option Nat
  | [], needle => if needle.isEmpty then some 0 else none
  | c :: t, needle =>
    if startsWithL (c :: t) needle then some 0 else (idxOf t needle).map (· + 1)

/-- JS `s.toLowerCase()` (ASCII). -/
def lowerStr (s : String) : String := String.mk (s.data.map Char.toLower)

/-- JS `s.charAt(0).toUpperCase() + s.slice(1)`. -/
def capFirst (s : String) : String :=
  match s.data with
  | [] => ""
  | c :: rest => String.mk (c.toUpper :: rest)

/-- JS `array.join(sep)`. -/
def joinWith (sep : String) : List String → String
  | [] => ""
  | [x] => x
  | x :: xs => x ++ sep ++ joinWith sep xs

/-- JS `s.split(' ')`. -/
def splitOnSpaceAux : List Char → List Char → List String
  | [], cur => [String.mk cur.reverse]
  | c :: rest, cur =>
    if c == ' ' then String.mk cur.reverse :: splitOnSpaceAux rest []
    else splitOnSpaceAux rest (c :: cur)

def splitOnSpace (s : String) : List String := splitOnSpaceAux s.data []

/-- JS `s.trim()` (space characters suffice for the inputs modelled here). -/
def trimSpaces (l : List Char) : List Char :=
  ((l.dropWhile (· == ' ')).reverse.dropWhile (· == ' ')).reverse

/-- JS `s || d` for strings: the empty string is falsy. -/
def jsOr (s d : String) : String := if s == "" then d else s

/-- JS `x?.f || d` where a missing value and the empty string both fall back. -/
def jsOrD : Option String → String → String
  | some s, d => jsOr s d
  | none, d => d

/-- JS `x?.notes || null`. -/
def jsOrNull : Option String → Option String
  | some s => if s == "" then none else some s
  | none => none

/-- JS `Set.prototype.add`: insert-if-absent, preserving insertion order. -/
def setAdd (s : List String) (x : String) : List String :=
  if s.contains x then s else s ++ [x]

/-- JS `Map.prototype.get` on an insertion-ordered association list. -/
def mapFind {α : Type} (m : List (String × α)) (k : String) : Option α :=
  (m.find? (fun p => p.1 == k)).map (fun p => p.2)

/-! ## A stable sort (JS `Array.prototype.sort` with a comparator; the
ECMAScript specification requires the result to be sorted and stable, which
insertion sort with `le x y ↔ compare(x,y) ≤ 0` realises). -/

def insertBy {α : Type} (le : α → α → Bool) (x : α) : List α → List α
  | [] => [x]
  | y :: ys => if le x y then x :: y :: ys else y :: insertBy le x ys

def sortBy {α : Type} (le : α → α → Bool) (l : List α) : List α :=
  l.foldr (insertBy le) []

/-- `a.localeCompare(b) ≤ 0` modelled as ASCII lexicographic order. -/
def lexLeC : List Char → List Char → Bool
  | [], _ => true
  | _ :: _, [] => false
  | a :: as, b :: bs => if a == b then lexLeC as bs else decide (a.toNat < b.toNat)

def lexLe (a b : String) : Bool := lexLeC a.data b.data

/-! ## MATERIAL_DATABASE, REJECTION_PATTERNS, ALWAYS_NOT_ACCEPTED -/

def acceptedDB : List (String × List String) :=
  [("Cardboard", ["cardboard", "corrugated", "boxes"]),
   ("Paper", ["paper", "office paper", "junk mail", "mail"]),
   ("Newspaper", ["newspaper", "newspapers", "newsprint"]),
   ("Magazines", ["magazines", "catalogs", "catalogues"]),
   ("Aluminum Cans", ["aluminum cans", "aluminum", "soda cans", "beer cans"]),
   ("Glass Bottles", ["glass bottles", "glass jars", "glass containers"]),
   ("Glass", ["glass"]),
   ("Plastic Bottles", ["plastic bottles", "water bottles", "soda bottles"]),
   ("Plastic Containers", ["plastic containers", "plastic tubs", "plastic jugs"]),
   ("Metal Cans", ["metal cans", "tin cans", "steel cans", "food cans"]),
   ("Cartons", ["cartons", "milk cartons", "juice cartons", "beverage cartons"]),
   ("Rigid Plastics",
    ["rigid plastics", "hard plastics", "plastic #1", "plastic #2", "pete", "hdpe"])]

def notAcceptedDB : List (String × List String) :=
  [("Plastic Bags", ["plastic bags", "grocery bags", "shopping bags", "film plastic"]),
   ("Styrofoam", ["styrofoam", "polystyrene", "foam", "packing peanuts"]),
   ("Food Waste", ["food waste", "food scraps", "food-soiled", "food contaminated"]),
   ("Electronics", ["electronics", "e-waste", "computers", "phones", "tvs"]),
   ("Batteries", ["batteries", "battery"]),
   ("Hazardous Waste", ["hazardous", "toxic", "chemicals", "pesticides"]),
   ("Yard Waste", ["yard waste", "grass clippings", "leaves", "branches"]),
   ("Textiles", ["textiles", "clothing", "clothes", "fabric"]),
   ("Diapers", ["diapers", "sanitary products"]),
   ("Ceramics", ["ceramics", "pottery", "dishes", "china"]),
   ("Mirrors", ["mirrors", "window glass", "broken glass"]),
   ("Light Bulbs", ["light bulbs", "bulbs", "fluorescent"]),
   ("Tanglers", ["hoses", "cords", "wires", "chains", "tanglers"]),
   ("Scrap Metal", ["scrap metal", "large metal", "metal furniture"])]

/-- The apostrophe character, for the rejection marker written don-apostrophe-t. -/
def aposChar : Char := Char.ofNat 39

def dontWord : String := String.mk ['d', 'o', 'n', aposChar, 't']

def rejectionPatterns : List String :=
  ["not accepted", "do not", dontWord, "cannot", "no ", "never", "prohibited", "banned"]

def alwaysNotAccepted : List String :=
  ["plastic bags", "styrofoam", "batteries", "electronics", "hazardous"]

/-! ## Data model -/

structure SearchResult where
  title : String
  url : String
  snippet : String
deriving DecidableEq, Repr

/-- Running accumulators of `extractRules`: `acceptedBySource`,
`notAcceptedBySource` (material → set of source URLs) and
`restrictionNotes` (material → note). -/
structure ScanSt where
  acc : List (String × List String)
  na : List (String × List String)
  notes : List (String × String)
deriving DecidableEq, Repr

/-- `acceptedBySource.get(canonical).add(url)` with implicit creation. -/
def mapAddUrl (m : List (String × List String)) (k url : String) :
    List (String × List String) :=
  if (m.find? (fun p => p.1 == k)).isSome then
    m.map (fun p => if p.1 == k then (p.1, setAdd p.2 url) else p)
  else m ++ [(k, [url])]

/-- The instruction phrases collected from a ±50-character context window,
in the fixed order of the source. -/
def instructionsIn (context : List Char) : List String :=
  (if subList "rinse".data context then ["rinse before recycling"] else []) ++
  (if subList "flatten".data context then ["flatten"] else []) ++
  (if subList "empty".data context then ["empty completely"] else []) ++
  (if subList "clean".data context then ["must be clean"] else []) ++
  (if subList "dry".data context then ["keep dry"] else []) ++
  (if subList "remove".data context && subList "cap".data context then ["remove caps"] else []) ++
  (if subList "remove".data context && subList "lid".data context then ["remove lids"] else []) ++
  (if subList "label".data context then ["labels OK"] else [])

/-- `extractNotes(text, term, canonical, notesMap)`: look in a ±50-character
window around the first occurrence of `term` and record the instructions
found, but only if `canonical` has no note yet. -/
def extractNotes (text term canonical : String) (notesMap : List (String × String)) :
    List (String × String) :=
  match idxOf text.data term.data with
  | none => notesMap
  | some idx =>
    let start := idx - 50
    let stop := Nat.min text.data.length (idx + term.data.length + 50)
    let context := (text.data.drop start).take (stop - start)
    let instructions := instructionsIn context
    if 0 < instructions.length && (mapFind notesMap canonical).isNone then
      notesMap ++ [(canonical, capFirst (joinWith ", " instructions))]
    else notesMap

/-- One accepted-table step of the per-result scan: the first matching
synonym of a material records the URL and tries to extract notes. -/
def scanAcceptedStep (text url : String) (st : ScanSt) (entry : String × List String) :
    ScanSt :=
  match entry.2.find? (fun term => strIncludes text term) with
  | some term =>
    { st with acc := mapAddUrl st.acc entry.1 url,
              notes := extractNotes text term entry.1 st.notes }
  | none => st

/-- One not-accepted-table step: additionally gated on rejection language or
the always-not-accepted list. -/
def scanNotAcceptedStep (hasRejectionContext : Bool) (text url : String) (st : ScanSt)
    (entry : String × List String) : ScanSt :=
  match entry.2.find? (fun term => strIncludes text term) with
  | some term =>
    if hasRejectionContext || alwaysNotAccepted.any (fun a => strIncludes term a) then
      { st with na := mapAddUrl st.na entry.1 url,
                notes := extractNotes text term entry.1 st.notes }
    else st
  | none => st

/-- Process one search result (the body of the main loop of `extractRules`). -/
def scanResult (st : ScanSt) (r : SearchResult) : ScanSt :=
  let text := lowerStr r.snippet
  let st1 := acceptedDB.foldl (scanAcceptedStep text r.url) st
  let hasRejectionContext := rejectionPatterns.any (fun p => strIncludes text p)
  notAcceptedDB.foldl (scanNotAcceptedStep hasRejectionContext text r.url) st1

def scanAll (results : List SearchResult) : ScanSt :=
  results.foldl scanResult ⟨[], [], []⟩

/-! ## Confidence aggregation, deduplication and the final Rules record -/

/-- An internal material entry of `extractRules` (still carrying
`sourceCount`). -/
structure MatEntry where
  material : String
  notes : String
  confidence : String
  sourceCount : Nat
deriving DecidableEq, Repr

/-- An output material entry after the cleanup `map` (no `sourceCount`). -/
structure CleanEntry where
  material : String
  notes : String
  confidence : String
deriving DecidableEq, Repr

/-- Comparator `(a, b) => b.sourceCount - a.sourceCount ||
a.material.localeCompare(b.material)` as a keep-`a`-before-`b` test. -/
def leSourceAlpha (a b : MatEntry) : Bool :=
  (decide (b.sourceCount < a.sourceCount)) ||
    (a.sourceCount == b.sourceCount && lexLe a.material b.material)

/-- Comparator `(a, b) => a.material.localeCompare(b.material)`. -/
def leAlpha (a b : MatEntry) : Bool := lexLe a.material b.material

/-- Comparator `(a, b) => b.material.length - a.material.length`. -/
def leLenDesc (a b : MatEntry) : Bool :=
  decide (b.material.length ≤ a.material.length)

/-- Comparator `(a, b) => (b.sourceCount || 0) - (a.sourceCount || 0)`. -/
def leSourceDesc (a b : MatEntry) : Bool :=
  decide (b.sourceCount ≤ a.sourceCount)

/-- The entry built from one `acceptedBySource` pair. -/
def mkAccItem (st : ScanSt) (p : String × List String) : MatEntry :=
  { material := p.1,
    notes := (mapFind st.notes p.1).getD "",
    confidence := if 2 ≤ p.2.length then "high" else "medium",
    sourceCount := p.2.length }

/-- The entry built from one `notAcceptedBySource` pair. -/
def mkNaItem (st : ScanSt) (p : String × List String) : MatEntry :=
  { material := p.1,
    notes := jsOrD (mapFind st.notes p.1) "Check local drop-off options",
    confidence := if 2 ≤ p.2.length then "high" else "medium",
    sourceCount := p.2.length }

def acceptedItems (st : ScanSt) : List MatEntry := st.acc.map (mkAccItem st)

/-- Multi-source accepted entries, sorted by source count then name. -/
def acceptedSorted (st : ScanSt) : List MatEntry :=
  sortBy leSourceAlpha ((acceptedItems st).filter (fun i => 2 ≤ i.sourceCount))

/-- Single-source accepted entries sorted alphabetically, with the
"Verify with local guidelines" default appended before pushing. -/
def singleSorted (st : ScanSt) : List MatEntry :=
  (sortBy leAlpha ((acceptedItems st).filter (fun i => i.sourceCount < 2))).map
    (fun it => { it with notes := jsOr it.notes "Verify with local guidelines" })

/-- The `accepted` array right before deduplication. -/
def acceptedFull (st : ScanSt) : List MatEntry := acceptedSorted st ++ singleSorted st

/-- The `notAccepted` array right before deduplication. -/
def naItemsSorted (st : ScanSt) : List MatEntry :=
  sortBy leSourceAlpha (st.na.map (mkNaItem st))

/-- One step of the deduplication walk: drop the candidate if any of its
words of length > 3 already occurs inside a retained name. -/
def dedupStep (st : List MatEntry × List String) (item : MatEntry) :
    List MatEntry × List String :=
  let words := splitOnSpace (lowerStr item.material)
  let isDup := words.any (fun word =>
    st.2.any (fun sm => strIncludes (lowerStr sm) word && decide (3 < word.length)))
  if isDup then st else (st.1 ++ [item], setAdd st.2 item.material)

/-- `deduplicateMaterials(materials)`: sort by name length descending, drop
overlapping shorter names, re-sort by source count. -/
def deduplicateMaterials (materials : List MatEntry) : List MatEntry :=
  let sorted := sortBy leLenDesc materials
  sortBy leSourceDesc (sorted.foldl dedupStep ([], [])).1

/-- The accepted-side cleanup `map` of `extractRules`. -/
def cleanA (e : MatEntry) : CleanEntry :=
  { material := e.material,
    notes := jsOr e.notes
      (if e.confidence == "high" then "Confirmed by multiple sources" else "Verify with source"),
    confidence := e.confidence }

/-- The not-accepted-side cleanup `map` of `extractRules`. -/
def cleanN (e : MatEntry) : CleanEntry :=
  { material := e.material,
    notes := jsOr e.notes "Check local guidelines for disposal",
    confidence := e.confidence }

/-! ## Location resolver (models the JavaScript regular expressions of
`extractLocation`; positions in the lower-cased text line up with the
original because `toLower` preserves length) -/

def isAlphaSpaceC (c : Char) : Bool := c.isAlpha || c == ' '

/-- Shape test for the capture `[A-Za-z\s]+,\s*[A-Z]{2}` anchored at the end. -/
def cityStShape (l : List Char) : Bool :=
  let letters := l.takeWhile isAlphaSpaceC
  let rest := l.drop letters.length
  match rest with
  | ',' :: r1 =>
    let r2 := r1.dropWhile (· == ' ')
    decide (1 ≤ letters.length) && r2.length == 2 && r2.all (fun c => c.isUpper)
  | _ => false

/-- The segment after the last bar character, if any. -/
def afterLastBar (l : List Char) : Option (List Char) :=
  if l.contains '|' then some ((l.reverse.takeWhile (fun c => c != '|')).reverse) else none

/-- Models the title pattern "bar, then City, ST at the end of the title";
the source then calls `.trim()` on the capture. -/
def titleBarMatch (title : String) : Option String :=
  match afterLastBar title.data with
  | some seg =>
    let t := trimSpaces seg
    if cityStShape t then some (String.mk t) else none
  | none => none

def suffixWords : List String := ["city", "county", "town", "village", "borough"]

/-- Models the case-insensitive title pattern
`([A-Za-z\s]+(?:City|County|Town|Village|Borough))`: the leftmost suffix
keyword with a non-empty letters-and-spaces run before it. -/
def titleSuffixMatch (title : String) : Option String :=
  let lowT := (lowerStr title).data
  let cands := suffixWords.filterMap (fun w =>
    (idxOf lowT w.data).map (fun i => (i, w.data.length)))
  let best := cands.foldl (fun acc c =>
    match acc with
    | none => some c
    | some b => if c.1 < b.1 then some c else some b) none
  match best with
  | some (i, len) =>
    let before := title.data.take i
    let run := ((before.reverse.takeWhile isAlphaSpaceC)).reverse
    if run.isEmpty then none
    else some (String.mk (trimSpaces (run ++ ((title.data.drop i).take len))))
  | none => none

def cityMappings : List (String × String) :=
  [("beverlyhills", "Beverly Hills"), ("losangeles", "Los Angeles"),
   ("newyork", "New York"), ("sanfrancisco", "San Francisco"),
   ("sandiego", "San Diego"), ("santamonica", "Santa Monica"),
   ("longbeach", "Long Beach")]

/-- Models the camel-case boundary replacement of the source: a space is
inserted between a lower-case letter and an upper-case letter. -/
def camelSplit : List Char → List Char
  | a :: b :: rest =>
    if a.isLower && b.isUpper then a :: ' ' :: camelSplit (b :: rest)
    else a :: camelSplit (b :: rest)
  | l => l

/-- Models the URL pattern `(?:www\.)?([a-z]+)(?:city|county|town|village)?\.(gov|org)`
(case-insensitively, on the lower-cased URL): the letter run before the
leftmost ".gov" or ".org".  Because the letter quantifier is greedy the
optional suffix group never strips anything in the source either. -/
def urlDomainMatch (url : String) : Option String :=
  let d := (lowerStr url).data
  let cand :=
    match idxOf d ".gov".data, idxOf d ".org".data with
    | some a, some b => some (Nat.min a b)
    | some a, none => some a
    | none, some b => some b
    | none, none => none
  match cand with
  | some i =>
    let run := (((d.take i).reverse.takeWhile (fun c => c.isAlpha))).reverse
    if run.isEmpty then none else some (String.mk run)
  | none => none

/-- The contribution of one result to `extractLocation`. -/
def locFromResult (r : SearchResult) : Option String :=
  match titleBarMatch r.title with
  | some s => some s
  | none =>
    match titleSuffixMatch r.title with
    | some s => some s
    | none =>
      match urlDomainMatch r.url with
      | some city =>
        some (match mapFind cityMappings (lowerStr city) with
          | some m => m
          | none => capFirst (String.mk (camelSplit city.data)))
      | none => none

/-- `extractLocation(zip, searchResults)`: first successful strategy wins,
falling back to "ZIP {zip}". -/
def extractLocation (zip : String) (results : List SearchResult) : String :=
  match (results.filterMap locFromResult).head? with
  | some l => l
  | none => "ZIP " ++ zip

/-! ## Tip extractor -/

/-- `a` occurs and `b` occurs after it (models `a.*b` in a regex test). -/
def inOrder (t : List Char) (a b : String) : Bool :=
  match idxOf t a.data with
  | some i => subList b.data (t.drop (i + a.data.length))
  | none => false

/-- The tips matched by one snippet, in the fixed pattern order (all the
source patterns carry the `i` flag, modelled by lowering the text). -/
def tipsFor (snippet : String) : List String :=
  let t := (lowerStr snippet).data
  (if subList "rinse".data t then ["Rinse containers before recycling"] else []) ++
  (if inOrder t "flatten" "cardboard" || inOrder t "cardboard" "flatten"
    then ["Flatten cardboard boxes"] else []) ++
  (if subList "empty".data t then ["Empty containers completely"] else []) ++
  (if inOrder t "clean" "dry" || inOrder t "dry" "clean"
    then ["Keep recyclables clean and dry"] else []) ++
  (if inOrder t "remove" "cap" || inOrder t "remove" "lid"
    then ["Remove caps and lids"] else []) ++
  (if inOrder t "no" "bag" || inOrder t dontWord "bag" || subList "loose".data t
    then ["Place recyclables loose in bin, not in bags"] else []) ++
  (if subList "label".data t then ["Labels can stay on containers"] else [])

/-- `extractTips(searchResults)`: every pattern against every snippet,
collected into an insertion-ordered set. -/
def extractTips (results : List SearchResult) : List String :=
  results.foldl (fun acc r => (tipsFor r.snippet).foldl setAdd acc) []

/-! ## Source deduplicator -/

structure Source where
  title : String
  url : String
deriving DecidableEq, Repr

/-- Models `new URL(u).hostname` for absolute URLs; `none` models the thrown
`TypeError` of the `catch` branch. -/
def urlHostname (u : String) : Option String :=
  match idxOf u.data "://".data with
  | none => none
  | some i =>
    let rest := u.data.drop (i + 3)
    let host := rest.takeWhile (fun c => c != '/' && c != ':' && c != '?' && c != '#')
    if host.isEmpty then none else some (String.mk host)

/-- `deduplicateSources(searchResults)`: first result per hostname;
unparseable URLs are kept unconditionally. -/
def deduplicateSources (results : List SearchResult) : List Source :=
  (results.foldl (fun acc r =>
    match urlHostname r.url with
    | some d =>
      if acc.1.contains d then acc else (acc.1 ++ [d], acc.2 ++ [Source.mk r.title r.url])
    | none => (acc.1, acc.2 ++ [Source.mk r.title r.url])) (([] : List String), ([] : List Source))).2

/-! ## extractRules and getRecyclingRules -/

structure RulesMeta where
  sourcesAnalyzed : Nat
  materialsFound : Nat
deriving DecidableEq, Repr

structure RulesOut where
  location : String
  accepted : List CleanEntry
  not_accepted : List CleanEntry
  tips : List String
  sources : List Source
  meta : RulesMeta
  error : Option String
deriving DecidableEq, Repr

def seeSourcesEntry : CleanEntry :=
  { material := "See sources below",
    notes := "Could not extract specific materials",
    confidence := "low" }

/-- `extractRules(zip, searchResults)`. -/
def extractRules (zip : String) (results : List SearchResult) : RulesOut :=
  let st := scanAll results
  let cleanAccepted := (deduplicateMaterials (acceptedFull st)).map cleanA
  let cleanNotAccepted := (deduplicateMaterials (naItemsSorted st)).map cleanN
  { location := extractLocation zip results,
    accepted := if 0 < cleanAccepted.length then cleanAccepted else [seeSourcesEntry],
    not_accepted := if 0 < cleanNotAccepted.length then cleanNotAccepted else [],
    tips := extractTips results,
    sources := deduplicateSources results,
    meta := { sourcesAnalyzed := results.length,
              materialsFound := st.acc.length + st.na.length },
    error := none }

/-- `getRecyclingRules(zip)`; the results of the external search provider are the
second argument (performing the search is outside the core). -/
def getRecyclingRules (zip : String) (searchResults : List SearchResult) : RulesOut :=
  if searchResults.length == 0 then
    { location := "ZIP " ++ zip,
      accepted := [],
      not_accepted := [],
      tips := [],
      sources := [],
      meta := { sourcesAnalyzed := 0, materialsFound := 0 },
      error := some "No recycling info found for this area" }
  else extractRules zip searchResults

/-! ## Material comparator (`compareMaterials`) -/

/-- A material entry of the rules object as `compareMaterials` reads it
(only `material` and `notes` are consulted). -/
structure RuleEntry where
  material : String
  notes : String
deriving DecidableEq, Repr

/-- The rules argument of `compareMaterials` as it is read (duck-typed in
the source; an absent `accepted`/`not_accepted`/`tips` array behaves
exactly like an empty one there, and an absent `location` like `""`). -/
structure RulesIn where
  accepted : List RuleEntry
  not_accepted : List RuleEntry
  location : String
  tips : List String
deriving DecidableEq, Repr

structure DetectedItem where
  name : String
  materials : List String
  confidence : Option String
  preparation : Option String
deriving DecidableEq, Repr

/-- The `detectedItems` argument: `notArray` models `null`, `undefined` or
any non-array value. -/
inductive DetectedInput where
  | notArray : DetectedInput
  | arr : List DetectedItem → DetectedInput
deriving DecidableEq, Repr

structure MatComp where
  material : String
  status : String
  reason : Option String
  notes : Option String
deriving DecidableEq, Repr

structure ItemComp where
  name : String
  confidence : Option String
  preparation : Option String
  overallStatus : String
  materials : List MatComp
deriving DecidableEq, Repr

structure Summary where
  recyclable : Nat
  notRecyclable : Nat
  unknown : Nat
  total : Option Nat
deriving DecidableEq, Repr

/-- The comparison record; `location`, `summary.total` and `tips` are
`Option`s because the early non-array return omits them. -/
structure Comparison where
  items : List ItemComp
  location : Option String
  summary : Summary
  tips : Option (List String)
deriving DecidableEq, Repr

/-- The `acceptedMaterials` lookup set: canonical names and variations of
the accepted taxonomy, then the accepted materials of the location rules. -/
def acceptedVocab (rules : RulesIn) : List String :=
  let base := acceptedDB.foldl (fun s e =>
    e.2.foldl (fun s v => setAdd s (lowerStr v)) (setAdd s (lowerStr e.1))) []
  rules.accepted.foldl (fun s it => setAdd s (lowerStr it.material)) base

/-- The `notAcceptedMaterials` lookup set. -/
def notAcceptedVocab (rules : RulesIn) : List String :=
  let base := notAcceptedDB.foldl (fun s e =>
    e.2.foldl (fun s v => setAdd s (lowerStr v)) (setAdd s (lowerStr e.1))) []
  rules.not_accepted.foldl (fun s it => setAdd s (lowerStr it.material)) base

/-- `recyclingRules.accepted?.find(...)` with the matching search term. -/
def findAccRule (ra : List RuleEntry) (term : String) : Option RuleEntry :=
  ra.find? (fun r =>
    strIncludes (lowerStr r.material) term || strIncludes term (lowerStr r.material))

/-- `recyclingRules.not_accepted?.find(...)` in the conflict branch. -/
def findNaRule (rn : List RuleEntry) (itemName materialLower : String) : Option RuleEntry :=
  rn.find? (fun r =>
    strIncludes (lowerStr r.material) itemName ||
    strIncludes itemName (lowerStr r.material) ||
    strIncludes (lowerStr r.material) materialLower ||
    strIncludes materialLower (lowerStr r.material))

/-- Accumulated state of the accepted-vocabulary scan: `isAccepted`,
`acceptedMatchSpecificity` and `matchedRule`. -/
structure AccScan where
  isAccepted : Bool
  spec : Nat
  matchedRule : Option RuleEntry
deriving DecidableEq, Repr

/-- One `(accepted, term)` step of the accepted-vocabulary scan
(`specificity` is `Math.min` of the two lengths). -/
def accStepT (ra : List RuleEntry) (cand : String) (st : AccScan) (term : String) : AccScan :=
  if strIncludes term cand || strIncludes cand term then
    if st.spec < Nat.min term.length cand.length then
      { isAccepted := true, spec := Nat.min term.length cand.length,
        matchedRule := findAccRule ra term }
    else st
  else st

/-- The accepted-vocabulary scan over all candidates and search terms. -/
def scanAcceptedVocab (vocab terms : List String) (ra : List RuleEntry) : AccScan :=
  vocab.foldl (fun st cand => terms.foldl (accStepT ra cand) st) ⟨false, 0, none⟩

/-- One `(notAccepted, term)` step of the not-accepted-vocabulary scan. -/
def naStepT (cand : String) (st : Bool × Nat) (term : String) : Bool × Nat :=
  if strIncludes term cand || strIncludes cand term then
    if st.2 < Nat.min term.length cand.length then
      (true, Nat.min term.length cand.length)
    else st
  else st

/-- The not-accepted-vocabulary scan (`isNotAccepted`, specificity). -/
def scanNaVocab (vocab terms : List String) : Bool × Nat :=
  vocab.foldl (fun st cand => terms.foldl (naStepT cand) st) (false, 0)

/-- Conflict resolution: the more specific match wins, ties favor accepted;
when not-accepted wins, the matched rule is looked up again among the
not-accepted entries of the location rules.  Returns
(isAccepted, isNotAccepted, matchedRule). -/
def resolveConflict (rn : List RuleEntry) (itemName materialLower : String)
    (a : AccScan) (na : Bool × Nat) : Bool × Bool × Option RuleEntry :=
  if a.isAccepted && na.1 then
    if na.2 ≤ a.spec then (true, false, a.matchedRule)
    else (false, true, findNaRule rn itemName materialLower)
  else (a.isAccepted, na.1, a.matchedRule)

/-- Classify one declared material of one detected item. -/
def classifyMaterial (rules : RulesIn) (accV naV : List String)
    (itemName material : String) : MatComp :=
  let materialLower := lowerStr material
  let terms := [itemName, materialLower]
  let a := scanAcceptedVocab accV terms rules.accepted
  let na := scanNaVocab naV terms
  let r := resolveConflict rules.not_accepted itemName materialLower a na
  if r.2.1 then
    { material := material, status := "not_recyclable",
      reason := some (jsOrD (r.2.2.map RuleEntry.notes) "Not accepted in curbside recycling"),
      notes := none }
  else if r.1 then
    { material := material, status := "recyclable",
      reason := none,
      notes := jsOrNull (r.2.2.map RuleEntry.notes) }
  else
    { material := material, status := "unknown",
      reason := some "Material not recognized - check local guidelines",
      notes := none }

/-- The per-item body of the comparison loop, threading the three counters. -/
def compareItemStep (rules : RulesIn) (accV naV : List String)
    (acc : List ItemComp × Nat × Nat × Nat) (item : DetectedItem) :
    List ItemComp × Nat × Nat × Nat :=
  let itemName := lowerStr item.name
  let mats := item.materials.map (classifyMaterial rules accV naV itemName)
  let itemRecyclable := !(mats.any (fun m => m.status == "not_recyclable"))
  let hasUnknown := mats.any (fun m => m.status == "unknown")
  let hasRecyclableMaterial := mats.any (fun m => m.status == "recyclable")
  let st :=
    if !itemRecyclable then ("not_recyclable", acc.2.1, acc.2.2.1 + 1, acc.2.2.2)
    else if hasRecyclableMaterial then ("recyclable", acc.2.1 + 1, acc.2.2.1, acc.2.2.2)
    else if hasUnknown then ("check_locally", acc.2.1, acc.2.2.1, acc.2.2.2 + 1)
    else ("recyclable", acc.2.1 + 1, acc.2.2.1, acc.2.2.2)
  (acc.1 ++ [{ name := item.name, confidence := item.confidence,
               preparation := item.preparation, overallStatus := st.1, materials := mats }],
   st.2.1, st.2.2.1, st.2.2.2)

/-- `compareMaterials(detectedItems, recyclingRules)`. -/
def compareMaterials (detectedItems : DetectedInput) (recyclingRules : RulesIn) : Comparison :=
  match detectedItems with
  | .notArray =>
    { items := [],
      location := none,
      summary := { recyclable := 0, notRecyclable := 0, unknown := 0, total := none },
      tips := none }
  | .arr items =>
    let accV := acceptedVocab recyclingRules
    let naV := notAcceptedVocab recyclingRules
    let acc := items.foldl (compareItemStep recyclingRules accV naV) ([], 0, 0, 0)
    { items := acc.1,
      location := some (jsOr recyclingRules.location "Unknown"),
      summary := { recyclable := acc.2.1, notRecyclable := acc.2.2.1,
                   unknown := acc.2.2.2, total := some items.length },
      tips := some recyclingRules.tips }

/-! ## Concrete inputs used by witnesses and counterexamples -/

/-- The round-trip snippet of the specification. -/
def r9 : SearchResult :=
  ⟨"T", "https://example.org/a",
   "please rinse plastic bottles before recycling; plastic bags are not accepted"⟩

def itemC2 : DetectedItem := ⟨"plastic bottle", ["plastic"], none, none⟩

def rulesC2 : RulesIn := ⟨[⟨"Plastic Bottles", ""⟩], [], "", []⟩

def rulesC7 : RulesIn := ⟨[], [⟨"Styrofoam", "Take to a drop-off site"⟩], "", []⟩

def rulesM : RulesIn := ⟨[], [⟨"Mirrors", "Wrap and trash"⟩], "", []⟩

def r1c8 : SearchResult := ⟨"t1", "https://a.org/x", "recycle cardboard here"⟩

def r2c8 : SearchResult := ⟨"t2", "https://b.org/y", "flatten cardboard boxes"⟩

def r3c8 : SearchResult := ⟨"t3", "https://c.org/z", "rinse cardboard"⟩

def rW : SearchResult := ⟨"tw", "https://w.org/a", "recycle glass here"⟩

def eW : CleanEntry := ⟨"Glass", "Verify with local guidelines", "medium"⟩

def rW6 : SearchResult := ⟨"tw", "https://w.org/a", "recycle glass; plastic bags banned"⟩

/-- The distinct source URLs recorded for a canonical accepted material. -/
def acceptedUrls (results : List SearchResult) (m : String) : List String :=
  (mapFind (scanAll results).acc m).getD []

/-- The distinct source URLs recorded for a canonical not-accepted material. -/
def notAcceptedUrls (results : List SearchResult) (m : String) : List String :=
  (mapFind (scanAll results).na m).getD []

/-- The specificity of one `(candidate, term)` pair, when the strings overlap. -/
def specOf (cand term : String) : Option Nat :=
  if strIncludes term cand || strIncludes cand term then
    some (Nat.min term.length cand.length)
  else none

/-- All specificities of overlapping `(candidate, term)` pairs. -/
def pairSpecs (vocab terms : List String) : List Nat :=
  vocab.foldr (fun c acc => terms.filterMap (specOf c) ++ acc) []

/-- The best (largest) specificity over all overlapping pairs. -/
def maxSpec (vocab terms : List String) : Nat :=
  (pairSpecs vocab terms).foldl Nat.max 0

/-! ## Generic helper lemmas -/

theorem foldl_inv {σ β : Type} (P : σ → Prop) (f : σ → β → σ) (l : List β) (s : σ)
    (h0 : P s) (hstep : ∀ s b, P s → P (f s b)) : P (l.foldl f s) := by
  induction l generalizing s with
  | nil => exact h0
  | cons b t ih => exact ih (f s b) (hstep s b h0)

theorem foldl_inv_mem {σ β : Type} (P : σ → Prop) (f : σ → β → σ) (l : List β) (s : σ)
    (h0 : P s) (hstep : ∀ s b, b ∈ l → P s → P (f s b)) : P (l.foldl f s) := by
  induction l generalizing s with
  | nil => exact h0
  | cons b t ih =>
    exact ih (f s b) (hstep s b (List.mem_cons_self b t) h0)
      (fun s' b' hb' => hstep s' b' (List.mem_cons_of_mem b hb'))

theorem mem_insertBy {α : Type} (le : α → α → Bool) (x a : α) (l : List α) :
    a ∈ insertBy le x l ↔ a = x ∨ a ∈ l := by
  induction l with
  | nil => simp [insertBy]
  | cons y ys ih =>
    by_cases h : le x y = true
    · simp [insertBy, h]
    · simp only [insertBy, h]
      simp only [Bool.false_eq_true, if_false, List.mem_cons, ih]
      tauto

theorem mem_sortBy {α : Type} (le : α → α → Bool) (a : α) (l : List α) :
    a ∈ sortBy le l ↔ a ∈ l := by
  induction l with
  | nil => simp [sortBy]
  | cons y ys ih =>
    show a ∈ insertBy le y (sortBy le ys) ↔ _
    rw [mem_insertBy]
    simp [ih]

theorem insertBy_head_of_all {α : Type} (le : α → α → Bool) (x : α) (l : List α)
    (h : ∀ y ∈ l, le x y = true) : insertBy le x l = x :: l := by
  cases l with
  | nil => rfl
  | cons y ys => simp [insertBy, h y (List.mem_cons_self y ys)]

theorem mapFind_append_left {α : Type} (m l : List (String × α)) (k : String) (v : α)
    (h : mapFind m k = some v) : mapFind (m ++ l) k = some v := by
  induction m with
  | nil => simp [mapFind] at h
  | cons q t ih =>
    by_cases hq : (q.1 == k) = true
    · simpa [mapFind, List.find?, hq] using h
    · simp only [mapFind, List.find?, hq] at h ⊢
      exact ih h

theorem mem_setAdd {s : List String} {x y : String} (h : y ∈ setAdd s x) :
    y ∈ s ∨ y = x := by
  unfold setAdd at h
  split at h
  · exact Or.inl h
  · rcases List.mem_append.mp h with h' | h'
    · exact Or.inl h'
    · exact Or.inr (List.mem_singleton.mp h')

theorem setAdd_nodup {s : List String} {x : String} (h : s.Nodup) :
    (setAdd s x).Nodup := by
  unfold setAdd
  split
  · exact h
  · next hc =>
    have hx : x ∉ s := by
      intro hmem
      exact hc (List.elem_eq_true_of_mem hmem)
    simp [List.nodup_append, h, hx]

theorem mem_mapAddUrl {m : List (String × List String)} {k url : String}
    {p : String × List String} (h : p ∈ mapAddUrl m k url) :
    p ∈ m ∨ (p = (k, [url])) ∨ ∃ q ∈ m, p = (q.1, setAdd q.2 url) := by
  unfold mapAddUrl at h
  split at h
  · rcases List.mem_map.mp h with ⟨q, hq, hfq⟩
    by_cases hqk : (q.1 == k) = true
    · simp only [hqk, if_true] at hfq
      exact Or.inr (Or.inr ⟨q, hq, hfq.symm⟩)
    · simp only [hqk, Bool.false_eq_true, if_false] at hfq
      exact Or.inl (hfq ▸ hq)
  · rcases List.mem_append.mp h with h' | h'
    · exact Or.inl h'
    · exact Or.inr (Or.inl (List.mem_singleton.mp h'))

theorem mapAddUrl_map_fst (m : List (String × List String)) (k url : String) :
    (mapAddUrl m k url).map Prod.fst = m.map Prod.fst ∨
    ((mapAddUrl m k url).map Prod.fst = m.map Prod.fst ++ [k] ∧ k ∉ m.map Prod.fst) := by
  unfold mapAddUrl
  split
  · left
    rw [List.map_map]
    apply List.map_congr_left
    intro q _
    show (if (q.1 == k) = true then (q.1, setAdd q.2 url) else q).1 = q.1
    split <;> rfl
  · next hfound =>
    right
    constructor
    · simp
    · intro hk
      rcases List.mem_map.mp hk with ⟨q, hq, hfq⟩
      have : (m.find? (fun p => p.1 == k)).isSome := by
        have : ∃ x, x ∈ m ∧ (fun p => p.1 == k) x = true :=
          ⟨q, hq, by simp [hfq]⟩
        rcases List.find?_isSome.mpr this with h'
        exact h'
      exact hfound this

theorem mapFind_of_mem_nodup {α : Type} {m : List (String × α)} {p : String × α}
    (hp : p ∈ m) (h : (m.map Prod.fst).Nodup) : mapFind m p.1 = some p.2 := by
  induction m with
  | nil => cases hp
  | cons q t ih =>
    rcases List.mem_cons.mp hp with rfl | hp'
    · simp [mapFind, List.find?]
    · have hq1 : q.1 ≠ p.1 := by
        intro he
        have hqn : q.1 ∉ t.map Prod.fst := by
          simpa using (List.nodup_cons.mp h).1
        exact hqn (he ▸ List.mem_map.mpr ⟨p, hp', rfl⟩)
      have hbeq : (q.1 == p.1) = false := by
        simpa using hq1
      simp only [mapFind, List.find?, hbeq]
      exact ih hp' (List.nodup_cons.mp h).2

/-! ## Invariants of the scan accumulators -/

/-- Keys of the two source maps come from the respective taxonomy tables,
keys are unique, and each URL set is duplicate-free. -/
def ScanInv (st : ScanSt) : Prop :=
  (∀ p ∈ st.acc, p.1 ∈ acceptedDB.map Prod.fst ∧ p.2.Nodup) ∧
  (st.acc.map Prod.fst).Nodup ∧
  (∀ p ∈ st.na, p.1 ∈ notAcceptedDB.map Prod.fst ∧ p.2.Nodup) ∧
  (st.na.map Prod.fst).Nodup

theorem mapAddUrl_inv {m : List (String × List String)} {k url : String}
    (hm : ∀ p ∈ m, p.2.Nodup) (hkeys : (m.map Prod.fst).Nodup) :
    (∀ p ∈ mapAddUrl m k url, p.2.Nodup) ∧ ((mapAddUrl m k url).map Prod.fst).Nodup := by
  constructor
  · intro p hp
    rcases mem_mapAddUrl hp with h | h | ⟨q, hq, rfl⟩
    · exact hm p h
    · subst h; simp
    · exact setAdd_nodup (hm q hq)
  · rcases mapAddUrl_map_fst m k url with h | ⟨h, hk⟩
    · rw [h]; exact hkeys
    · rw [h]
      simp [List.nodup_append, hkeys, hk]

theorem mapAddUrl_key_mem {m : List (String × List String)} {k url : String}
    {p : String × List String} (hp : p ∈ mapAddUrl m k url) :
    p.1 = k ∨ p.1 ∈ m.map Prod.fst := by
  rcases mem_mapAddUrl hp with h | h | ⟨q, hq, rfl⟩
  · exact Or.inr (List.mem_map.mpr ⟨p, h, rfl⟩)
  · subst h; exact Or.inl rfl
  · exact Or.inr (List.mem_map.mpr ⟨q, hq, rfl⟩)

theorem scanAcceptedStep_inv (text url : String) (st : ScanSt)
    (entry : String × List String) (hentry : entry ∈ acceptedDB) (h : ScanInv st) :
    ScanInv (scanAcceptedStep text url st entry) := by
  unfold scanAcceptedStep
  obtain ⟨h1, h2, h3, h4⟩ := h
  cases hfind : entry.2.find? (fun term => strIncludes text term) with
  | none => exact ⟨h1, h2, h3, h4⟩
  | some term =>
    refine ⟨?_, ?_, h3, h4⟩
    · intro p hp
      constructor
      · rcases mapAddUrl_key_mem hp with hk | hk
        · exact hk ▸ List.mem_map.mpr ⟨entry, hentry, rfl⟩
        · rcases List.mem_map.mp hk with ⟨q, hq, hq1⟩
          exact hq1 ▸ (h1 q hq).1
      · exact (mapAddUrl_inv (fun q hq => (h1 q hq).2) h2).1 p hp
    · exact (mapAddUrl_inv (fun q hq => (h1 q hq).2) h2).2

theorem scanNotAcceptedStep_inv (ctx : Bool) (text url : String) (st : ScanSt)
    (entry : String × List String) (hentry : entry ∈ notAcceptedDB) (h : ScanInv st) :
    ScanInv (scanNotAcceptedStep ctx text url st entry) := by
  unfold scanNotAcceptedStep
  obtain ⟨h1, h2, h3, h4⟩ := h
  cases hfind : entry.2.find? (fun term => strIncludes text term) with
  | none => exact ⟨h1, h2, h3, h4⟩
  | some term =>
    show ScanInv (if (ctx || alwaysNotAccepted.any fun a => strIncludes term a) = true
      then { st with na := mapAddUrl st.na entry.1 url,
                     notes := extractNotes text term entry.1 st.notes }
      else st)
    by_cases hg : (ctx || alwaysNotAccepted.any fun a => strIncludes term a) = true
    · rw [if_pos hg]
      refine ⟨h1, h2, ?_, ?_⟩
      · intro p hp
        constructor
        · rcases mapAddUrl_key_mem hp with hk | hk
          · exact hk ▸ List.mem_map.mpr ⟨entry, hentry, rfl⟩
          · rcases List.mem_map.mp hk with ⟨q, hq, hq1⟩
            exact hq1 ▸ (h3 q hq).1
        · exact (mapAddUrl_inv (fun q hq => (h3 q hq).2) h4).1 p hp
      · exact (mapAddUrl_inv (fun q hq => (h3 q hq).2) h4).2
    · rw [if_neg hg]
      exact ⟨h1, h2, h3, h4⟩

theorem scanResult_inv (st : ScanSt) (r : SearchResult) (h : ScanInv st) :
    ScanInv (scanResult st r) := by
  unfold scanResult
  apply foldl_inv_mem (P := ScanInv)
  · apply foldl_inv_mem (P := ScanInv)
    · exact h
    · intro s e he hs
      exact scanAcceptedStep_inv _ _ s e he hs
  · intro s e he hs
    exact scanNotAcceptedStep_inv _ _ _ s e he hs

theorem scanAll_inv (results : List SearchResult) : ScanInv (scanAll results) := by
  unfold scanAll
  apply foldl_inv (P := ScanInv)
  · refine ⟨?_, ?_, ?_, ?_⟩ <;> simp
  · intro s r hs
    exact scanResult_inv s r hs

/-! ## Membership chains through aggregation, deduplication and cleanup -/

theorem mem_acceptedFull {st : ScanSt} {e : MatEntry} (h : e ∈ acceptedFull st) :
    ∃ p ∈ st.acc, e.material = p.1 ∧
      e.confidence = (if 2 ≤ p.2.length then "high" else "medium") := by
  unfold acceptedFull at h
  rcases List.mem_append.mp h with h' | h'
  · unfold acceptedSorted at h'
    rw [mem_sortBy] at h'
    have hi := List.mem_of_mem_filter h'
    unfold acceptedItems at hi
    rcases List.mem_map.mp hi with ⟨p, hp, rfl⟩
    exact ⟨p, hp, rfl, rfl⟩
  · unfold singleSorted at h'
    rcases List.mem_map.mp h' with ⟨e', he', rfl⟩
    rw [mem_sortBy] at he'
    have hi := List.mem_of_mem_filter he'
    unfold acceptedItems at hi
    rcases List.mem_map.mp hi with ⟨p, hp, rfl⟩
    exact ⟨p, hp, rfl, rfl⟩

theorem mem_naItemsSorted {st : ScanSt} {e : MatEntry} (h : e ∈ naItemsSorted st) :
    ∃ p ∈ st.na, e.material = p.1 ∧
      e.confidence = (if 2 ≤ p.2.length then "high" else "medium") := by
  unfold naItemsSorted at h
  rw [mem_sortBy] at h
  rcases List.mem_map.mp h with ⟨p, hp, rfl⟩
  exact ⟨p, hp, rfl, rfl⟩

theorem dedupStep_fst (acc : List MatEntry × List String) (x : MatEntry) :
    (dedupStep acc x).1 = acc.1 ∨ (dedupStep acc x).1 = acc.1 ++ [x] := by
  simp only [dedupStep]
  split
  · exact Or.inl rfl
  · exact Or.inr rfl

theorem mem_dedupFold {l : List MatEntry} {e : MatEntry} :
    ∀ acc : List MatEntry × List String,
      e ∈ (l.foldl dedupStep acc).1 → e ∈ acc.1 ∨ e ∈ l := by
  induction l with
  | nil => intro acc h; exact Or.inl h
  | cons x xs ih =>
    intro acc h
    rcases ih (dedupStep acc x) h with h' | h'
    · rcases dedupStep_fst acc x with heq | heq
      · rw [heq] at h'
        exact Or.inl h'
      · rw [heq] at h'
        rcases List.mem_append.mp h' with h'' | h''
        · exact Or.inl h''
        · exact Or.inr (List.mem_singleton.mp h'' ▸ List.mem_cons_self x xs)
    · exact Or.inr (List.mem_cons_of_mem x h')

theorem mem_dedup {l : List MatEntry} {e : MatEntry}
    (h : e ∈ deduplicateMaterials l) : e ∈ l := by
  unfold deduplicateMaterials at h
  rw [mem_sortBy] at h
  rcases mem_dedupFold ([], []) h with h' | h'
  · cases h'
  · exact (mem_sortBy leLenDesc e l).mp h'

theorem mem_extractRules_accepted {zip : String} {results : List SearchResult}
    {e : CleanEntry} (h : e ∈ (extractRules zip results).accepted) :
    e = seeSourcesEntry ∨
      ∃ p ∈ (scanAll results).acc, e.material = p.1 ∧
        e.confidence = (if 2 ≤ p.2.length then "high" else "medium") := by
  unfold extractRules at h
  simp only at h
  split at h
  · rcases List.mem_map.mp h with ⟨e', he', rfl⟩
    have he'' := mem_acceptedFull (mem_dedup he')
    rcases he'' with ⟨p, hp, hmat, hconf⟩
    exact Or.inr ⟨p, hp, hmat, hconf⟩
  · exact Or.inl (List.mem_singleton.mp h)

theorem mem_extractRules_na {zip : String} {results : List SearchResult}
    {e : CleanEntry} (h : e ∈ (extractRules zip results).not_accepted) :
    ∃ p ∈ (scanAll results).na, e.material = p.1 ∧
      e.confidence = (if 2 ≤ p.2.length then "high" else "medium") := by
  unfold extractRules at h
  simp only at h
  split at h
  · rcases List.mem_map.mp h with ⟨e', he', rfl⟩
    exact mem_naItemsSorted (mem_dedup he')
  · cases h

/-! ## Notes are written at most once (no overwriting) -/

theorem extractNotes_preserves {text term canonical k v : String}
    {nm : List (String × String)} (h : mapFind nm k = some v) :
    mapFind (extractNotes text term canonical nm) k = some v := by
  unfold extractNotes
  cases idxOf text.data term.data with
  | none => exact h
  | some idx =>
    simp only
    split
    · exact mapFind_append_left _ _ _ _ h
    · exact h

theorem scanAcceptedStep_notes {text url k v : String} {st : ScanSt}
    {entry : String × List String} (h : mapFind st.notes k = some v) :
    mapFind (scanAcceptedStep text url st entry).notes k = some v := by
  unfold scanAcceptedStep
  cases entry.2.find? (fun term => strIncludes text term) with
  | none => exact h
  | some term => exact extractNotes_preserves h

theorem scanNotAcceptedStep_notes {ctx : Bool} {text url k v : String} {st : ScanSt}
    {entry : String × List String} (h : mapFind st.notes k = some v) :
    mapFind (scanNotAcceptedStep ctx text url st entry).notes k = some v := by
  unfold scanNotAcceptedStep
  cases entry.2.find? (fun term => strIncludes text term) with
  | none => exact h
  | some term =>
    show mapFind (if (ctx || alwaysNotAccepted.any fun a => strIncludes term a) = true
      then { st with na := mapAddUrl st.na entry.1 url,
                     notes := extractNotes text term entry.1 st.notes }
      else st).notes k = some v
    split
    · exact extractNotes_preserves h
    · exact h

theorem scanResult_notes {k v : String} {st : ScanSt} {r : SearchResult}
    (h : mapFind st.notes k = some v) :
    mapFind (scanResult st r).notes k = some v := by
  show mapFind (List.foldl
      (scanNotAcceptedStep (rejectionPatterns.any fun p => strIncludes (lowerStr r.snippet) p)
        (lowerStr r.snippet) r.url)
      (List.foldl (scanAcceptedStep (lowerStr r.snippet) r.url) st acceptedDB)
      notAcceptedDB).notes k = some v
  apply foldl_inv (P := fun st : ScanSt => mapFind st.notes k = some v)
  · apply foldl_inv (P := fun st : ScanSt => mapFind st.notes k = some v)
    · exact h
    · intro s e hs
      exact scanAcceptedStep_notes hs
  · intro s e hs
    exact scanNotAcceptedStep_notes hs

/-! ## The tracked specificity is the maximum over all overlapping pairs -/

theorem accStepT_spec (ra : List RuleEntry) (cand : String) (st : AccScan) (term : String) :
    (accStepT ra cand st term).spec =
      (match specOf cand term with
       | some s => Nat.max st.spec s
       | none => st.spec) := by
  unfold accStepT specOf
  by_cases hov : (strIncludes term cand || strIncludes cand term) = true
  · rw [if_pos hov, if_pos hov]
    by_cases hlt : st.spec < Nat.min term.length cand.length
    · rw [if_pos hlt]
      exact (Nat.max_eq_right (Nat.le_of_lt hlt)).symm
    · rw [if_neg hlt]
      exact (Nat.max_eq_left (Nat.le_of_not_lt hlt)).symm
  · rw [if_neg hov, if_neg hov]

theorem accFoldT_spec (ra : List RuleEntry) (cand : String) :
    ∀ (terms : List String) (st : AccScan),
      (terms.foldl (accStepT ra cand) st).spec =
        (terms.filterMap (specOf cand)).foldl Nat.max st.spec := by
  intro terms
  induction terms with
  | nil => intro st; rfl
  | cons t ts ih =>
    intro st
    show (ts.foldl (accStepT ra cand) (accStepT ra cand st t)).spec = _
    rw [ih, List.filterMap_cons]
    cases hspec : specOf cand t with
    | none =>
      have : (accStepT ra cand st t).spec = st.spec := by
        rw [accStepT_spec, hspec]
      rw [this]
    | some s =>
      have : (accStepT ra cand st t).spec = Nat.max st.spec s := by
        rw [accStepT_spec, hspec]
      rw [this, List.foldl_cons]

theorem scanAcceptedVocab_spec (vocab terms : List String) (ra : List RuleEntry) :
    (scanAcceptedVocab vocab terms ra).spec = maxSpec vocab terms := by
  unfold scanAcceptedVocab maxSpec
  suffices h : ∀ (v : List String) (st : AccScan),
      (v.foldl (fun st cand => terms.foldl (accStepT ra cand) st) st).spec =
        (pairSpecs v terms).foldl Nat.max st.spec by
    exact h vocab ⟨false, 0, none⟩
  intro v
  induction v with
  | nil => intro st; rfl
  | cons c vs ih =>
    intro st
    show (vs.foldl _ (terms.foldl (accStepT ra c) st)).spec = _
    rw [ih, accFoldT_spec]
    show _ = (List.foldl Nat.max st.spec (terms.filterMap (specOf c) ++ pairSpecs vs terms))
    rw [List.foldl_append]

theorem naStepT_spec (cand : String) (st : Bool × Nat) (term : String) :
    (naStepT cand st term).2 =
      (match specOf cand term with
       | some s => Nat.max st.2 s
       | none => st.2) := by
  unfold naStepT specOf
  by_cases hov : (strIncludes term cand || strIncludes cand term) = true
  · rw [if_pos hov, if_pos hov]
    by_cases hlt : st.2 < Nat.min term.length cand.length
    · rw [if_pos hlt]
      exact (Nat.max_eq_right (Nat.le_of_lt hlt)).symm
    · rw [if_neg hlt]
      exact (Nat.max_eq_left (Nat.le_of_not_lt hlt)).symm
  · rw [if_neg hov, if_neg hov]

theorem naFoldT_spec (cand : String) :
    ∀ (terms : List String) (st : Bool × Nat),
      (terms.foldl (naStepT cand) st).2 =
        (terms.filterMap (specOf cand)).foldl Nat.max st.2 := by
  intro terms
  induction terms with
  | nil => intro st; rfl
  | cons t ts ih =>
    intro st
    show (ts.foldl (naStepT cand) (naStepT cand st t)).2 = _
    rw [ih, List.filterMap_cons]
    cases hspec : specOf cand t with
    | none =>
      have : (naStepT cand st t).2 = st.2 := by
        rw [naStepT_spec, hspec]
      rw [this]
    | some s =>
      have : (naStepT cand st t).2 = Nat.max st.2 s := by
        rw [naStepT_spec, hspec]
      rw [this, List.foldl_cons]

theorem scanNaVocab_spec (vocab terms : List String) :
    (scanNaVocab vocab terms).2 = maxSpec vocab terms := by
  unfold scanNaVocab maxSpec
  suffices h : ∀ (v : List String) (st : Bool × Nat),
      (v.foldl (fun st cand => terms.foldl (naStepT cand) st) st).2 =
        (pairSpecs v terms).foldl Nat.max st.2 by
    exact h vocab (false, 0)
  intro v
  induction v with
  | nil => intro st; rfl
  | cons c vs ih =>
    intro st
    show (vs.foldl _ (terms.foldl (naStepT c) st)).2 = _
    rw [ih, naFoldT_spec]
    show _ = (List.foldl Nat.max st.2 (terms.filterMap (specOf c) ++ pairSpecs vs terms))
    rw [List.foldl_append]

/-- The matched rule is only ever set together with `isAccepted`. -/
theorem scanAcceptedVocab_rule_none (vocab terms : List String) (ra : List RuleEntry)
    (h : (scanAcceptedVocab vocab terms ra).isAccepted = false) :
    (scanAcceptedVocab vocab terms ra).matchedRule = none := by
  unfold scanAcceptedVocab at h ⊢
  revert h
  apply foldl_inv (P := fun st : AccScan => st.isAccepted = false → st.matchedRule = none)
  · intro _; rfl
  · intro s cand hs
    apply foldl_inv (P := fun st : AccScan => st.isAccepted = false → st.matchedRule = none)
    · exact hs
    · intro s' term hs'
      unfold accStepT
      split
      · split
        · intro hfalse
          exact absurd hfalse (by simp)
        · exact hs'
      · exact hs'

/-! ## The strictly longest entry heads the length-descending sort -/

theorem sortBy_strict_max_head (l : List MatEntry) (e : MatEntry) (he : e ∈ l)
    (hmax : ∀ x ∈ l, x = e ∨ x.material.length < e.material.length) :
    ∃ t, sortBy leLenDesc l = e :: t := by
  induction l with
  | nil => cases he
  | cons x xs ih =>
    show ∃ t, insertBy leLenDesc x (sortBy leLenDesc xs) = e :: t
    by_cases hx : x = e
    · subst hx
      refine ⟨sortBy leLenDesc xs, ?_⟩
      apply insertBy_head_of_all
      intro y hy
      have hy' : y ∈ xs := (mem_sortBy _ _ _).mp hy
      rcases hmax y (List.mem_cons_of_mem x hy') with rfl | hlen
      · exact decide_eq_true (Nat.le_refl _)
      · exact decide_eq_true (Nat.le_of_lt hlen)
    · have he' : e ∈ xs := by
        rcases List.mem_cons.mp he with h' | h'
        · exact absurd h'.symm hx
        · exact h'
      have hx' : x.material.length < e.material.length :=
        (hmax x (List.mem_cons_self x xs)).resolve_left hx
      obtain ⟨t, ht⟩ := ih he' (fun y hy => hmax y (List.mem_cons_of_mem x hy))
      rw [ht]
      refine ⟨insertBy leLenDesc x t, ?_⟩
      show (if leLenDesc x e = true then x :: e :: t else e :: insertBy leLenDesc x t) = _
      rw [if_neg]
      simp only [leLenDesc, decide_eq_true_eq]
      omega

/-! ## Case analysis of the per-material classification -/

/-- All five outcome cases of `classifyMaterial`, in terms of the two
vocabulary scans. -/
theorem classifyMaterial_cases (rules : RulesIn) (accV naV : List String)
    (itemName material : String) :
    (((scanAcceptedVocab accV [itemName, lowerStr material] rules.accepted).isAccepted = true →
      (scanNaVocab naV [itemName, lowerStr material]).1 = true →
      (scanNaVocab naV [itemName, lowerStr material]).2 ≤
        (scanAcceptedVocab accV [itemName, lowerStr material] rules.accepted).spec →
      classifyMaterial rules accV naV itemName material =
        ⟨material, "recyclable", none,
          jsOrNull (((scanAcceptedVocab accV [itemName, lowerStr material]
            rules.accepted).matchedRule).map RuleEntry.notes)⟩) ∧
     ((scanAcceptedVocab accV [itemName, lowerStr material] rules.accepted).isAccepted = true →
      (scanNaVocab naV [itemName, lowerStr material]).1 = true →
      (scanAcceptedVocab accV [itemName, lowerStr material] rules.accepted).spec <
        (scanNaVocab naV [itemName, lowerStr material]).2 →
      classifyMaterial rules accV naV itemName material =
        ⟨material, "not_recyclable",
          some (jsOrD ((findNaRule rules.not_accepted itemName (lowerStr material)).map
            RuleEntry.notes) "Not accepted in curbside recycling"), none⟩) ∧
     ((scanAcceptedVocab accV [itemName, lowerStr material] rules.accepted).isAccepted = true →
      (scanNaVocab naV [itemName, lowerStr material]).1 = false →
      classifyMaterial rules accV naV itemName material =
        ⟨material, "recyclable", none,
          jsOrNull (((scanAcceptedVocab accV [itemName, lowerStr material]
            rules.accepted).matchedRule).map RuleEntry.notes)⟩) ∧
     ((scanAcceptedVocab accV [itemName, lowerStr material] rules.accepted).isAccepted = false →
      (scanNaVocab naV [itemName, lowerStr material]).1 = true →
      classifyMaterial rules accV naV itemName material =
        ⟨material, "not_recyclable", some "Not accepted in curbside recycling", none⟩) ∧
     ((scanAcceptedVocab accV [itemName, lowerStr material] rules.accepted).isAccepted = false →
      (scanNaVocab naV [itemName, lowerStr material]).1 = false →
      classifyMaterial rules accV naV itemName material =
        ⟨material, "unknown", some "Material not recognized - check local guidelines", none⟩)) := by
  refine ⟨?_, ?_, ?_, ?_, ?_⟩
  · intro h1 h2 h3
    simp only [classifyMaterial, resolveConflict]
    rw [h1, h2]
    simp only [Bool.and_self, if_true, if_pos h3]
    simp
  · intro h1 h2 h3
    simp only [classifyMaterial, resolveConflict]
    rw [h1, h2]
    simp only [Bool.and_self, if_true, if_neg (Nat.not_le_of_lt h3)]
  · intro h1 h2
    simp only [classifyMaterial, resolveConflict]
    rw [h1, h2]
    simp only [Bool.and_false, Bool.false_eq_true, if_false, h1, if_true]
  · intro h1 h2
    have hrule := scanAcceptedVocab_rule_none accV [itemName, lowerStr material]
      rules.accepted h1
    simp only [classifyMaterial, resolveConflict]
    rw [h1, h2, hrule]
    simp [jsOrD]
  · intro h1 h2
    simp only [classifyMaterial, resolveConflict]
    rw [h1, h2]
    simp

/-! ## Further concrete inputs for witnesses -/

def accVW : List String := ["plastic bottles"]

def naVW : List String := ["plastic bags"]

def rules0 : RulesIn := ⟨[], [], "", []⟩

def l5 : List MatEntry := [⟨"Glass", "", "medium", 1⟩, ⟨"Glass Bottles", "", "medium", 1⟩]

def e5 : MatEntry := ⟨"Glass Bottles", "", "medium", 1⟩

/-! # Claim theorems -/

/-- C1: in `compareMaterials`, for every material for which both an
accepted-vocabulary candidate and a not-accepted-vocabulary candidate are
found, the side whose best match has the higher specificity (the maximum
over all overlapping pairs of the minimum of the two string lengths)
determines the classification; on a tie the material is classified
accepted (status `recyclable`), the losing classification is discarded. -/
theorem c1_conflict_specificity_wins (rules : RulesIn) (accV naV : List String)
    (itemName material : String)
    (hA : (scanAcceptedVocab accV [itemName, lowerStr material] rules.accepted).isAccepted = true)
    (hN : (scanNaVocab naV [itemName, lowerStr material]).1 = true) :
    (classifyMaterial rules accV naV itemName material).status =
      (if maxSpec naV [itemName, lowerStr material] ≤ maxSpec accV [itemName, lowerStr material]
       then "recyclable" else "not_recyclable") := by
  have hcases := classifyMaterial_cases rules accV naV itemName material
  rw [← scanAcceptedVocab_spec accV [itemName, lowerStr material] rules.accepted,
      ← scanNaVocab_spec naV [itemName, lowerStr material]]
  by_cases hle : (scanNaVocab naV [itemName, lowerStr material]).2 ≤
      (scanAcceptedVocab accV [itemName, lowerStr material] rules.accepted).spec
  · rw [hcases.1 hA hN hle, if_pos hle]
  · rw [hcases.2.1 hA hN (Nat.lt_of_not_le hle), if_neg hle]

set_option maxRecDepth 100000 in
/-- Witness for C1 at the conflict between "plastic bottles" (accepted) and
"plastic bags" (not accepted) for the item "plastic bottle" with material
"plastic". -/
theorem c1_conflict_specificity_wins_witness :
    (classifyMaterial rules0 accVW naVW "plastic bottle" "plastic").status =
      (if maxSpec naVW ["plastic bottle", lowerStr "plastic"] ≤
          maxSpec accVW ["plastic bottle", lowerStr "plastic"]
       then "recyclable" else "not_recyclable") :=
  c1_conflict_specificity_wins rules0 accVW naVW "plastic bottle" "plastic"
    (by decide) (by decide)

/-- C3: with an empty search-result list, `getRecyclingRules` returns a
record whose accepted, not-accepted, tips and sources lists are all empty,
whose `meta.sourcesAnalyzed` is 0 and whose error is a non-null message;
the "See sources below" placeholder is not substituted. -/
theorem c3_zero_results (zip : String) :
    (getRecyclingRules zip []).accepted = [] ∧
    (getRecyclingRules zip []).not_accepted = [] ∧
    (getRecyclingRules zip []).tips = [] ∧
    (getRecyclingRules zip []).sources = [] ∧
    (getRecyclingRules zip []).meta.sourcesAnalyzed = 0 ∧
    (getRecyclingRules zip []).error = some "No recycling info found for this area" ∧
    ((getRecyclingRules zip []).accepted.filter
      (fun e => e.material == "See sources below")) = [] :=
  ⟨rfl, rfl, rfl, rfl, rfl, rfl, rfl⟩

/-- C5: `deduplicateMaterials` never drops the entry whose canonical name
is the longest in the list (every other entry is either an identical copy
or has a strictly shorter name). -/
theorem c5_longest_never_dropped (l : List MatEntry) (e : MatEntry) (he : e ∈ l)
    (hmax : ∀ x ∈ l, x = e ∨ x.material.length < e.material.length) :
    e ∈ deduplicateMaterials l := by
  obtain ⟨t, ht⟩ := sortBy_strict_max_head l e he hmax
  unfold deduplicateMaterials
  rw [mem_sortBy, ht]
  show e ∈ (List.foldl dedupStep (dedupStep ([], []) e) t).1
  have h1 : e ∈ (dedupStep ([], []) e).1 := by
    simp [dedupStep]
  apply foldl_inv (P := fun acc : List MatEntry × List String => e ∈ acc.1) _ _ _ h1
  intro s b hs
  rcases dedupStep_fst s b with heq | heq <;> rw [heq]
  · exact hs
  · exact List.mem_append_left _ hs

set_option maxRecDepth 100000 in
/-- Witness for C5: "Glass Bottles" survives deduplication against the
shorter overlapping candidate "Glass". -/
theorem c5_longest_never_dropped_witness : e5 ∈ deduplicateMaterials l5 :=
  c5_longest_never_dropped l5 e5 (by decide) (by decide)

/-- C10: a null/undefined/non-array `detectedItems` argument yields
`{items: [], summary: {recyclable: 0, notRecyclable: 0, unknown: 0}}` with
no `total`, `location` or `tips` fields, whereas every array input
(including the empty array) yields a record that has all three. -/
theorem c10_non_array_early_return (rules : RulesIn) :
    compareMaterials DetectedInput.notArray rules =
      { items := [], location := none,
        summary := { recyclable := 0, notRecyclable := 0, unknown := 0, total := none },
        tips := none } ∧
    ∀ items : List DetectedItem,
      (compareMaterials (DetectedInput.arr items) rules).summary.total = some items.length ∧
      (compareMaterials (DetectedInput.arr items) rules).location =
        some (jsOr rules.location "Unknown") ∧
      (compareMaterials (DetectedInput.arr items) rules).tips = some rules.tips :=
  ⟨rfl, fun _ => ⟨rfl, rfl, rfl⟩⟩

set_option maxRecDepth 100000 in
/-- C7 counterexample: the item "styrofoam" with material "styrofoam" is
classified `not_recyclable` while the Rules not-accepted list contains an
entry ("Styrofoam") whose name overlaps the matched search term and whose
notes are "Take to a drop-off site" — yet the reported reason is the
default string, not the notes of that entry, because no accepted/not-accepted
conflict occurred and the source only looks the rule up inside the
conflict branch. -/
theorem c7_reason_cex :
    ((compareMaterials (DetectedInput.arr [⟨"styrofoam", ["styrofoam"], none, none⟩])
        rulesC7).items.map ItemComp.materials =
      [[⟨"styrofoam", "not_recyclable", some "Not accepted in curbside recycling", none⟩]]) ∧
    (∃ r ∈ rulesC7.not_accepted,
      (strIncludes (lowerStr r.material) "styrofoam" ||
       strIncludes "styrofoam" (lowerStr r.material)) = true ∧
      r.notes = "Take to a drop-off site") ∧
    ("Take to a drop-off site" == "Not accepted in curbside recycling") = false := by
  decide

/-- C7 (amended): a material classified `not_recyclable` carries as reason
the notes of the first Rules not-accepted entry overlapping (substring in
either direction) the item name or the material string only when both
vocabularies matched and the not-accepted side won by strictly higher
specificity (empty notes falling back to the default); in every other
`not_recyclable` case — in particular when only the not-accepted
vocabulary matched — the reason is always the default string
"Not accepted in curbside recycling", even if an overlapping Rules entry
exists. -/
theorem c7_not_recyclable_reason (rules : RulesIn) (accV naV : List String)
    (itemName material : String)
    (h : (classifyMaterial rules accV naV itemName material).status = "not_recyclable") :
    (classifyMaterial rules accV naV itemName material).reason =
      some (if (scanAcceptedVocab accV [itemName, lowerStr material] rules.accepted).isAccepted
               && (scanNaVocab naV [itemName, lowerStr material]).1
               && decide ((scanAcceptedVocab accV [itemName, lowerStr material]
                    rules.accepted).spec < (scanNaVocab naV [itemName, lowerStr material]).2)
            then jsOrD ((findNaRule rules.not_accepted itemName (lowerStr material)).map
                   RuleEntry.notes) "Not accepted in curbside recycling"
            else "Not accepted in curbside recycling") := by
  have hcases := classifyMaterial_cases rules accV naV itemName material
  cases hA : (scanAcceptedVocab accV [itemName, lowerStr material] rules.accepted).isAccepted with
  | true =>
    cases hN : (scanNaVocab naV [itemName, lowerStr material]).1 with
    | true =>
      by_cases hlt : (scanAcceptedVocab accV [itemName, lowerStr material] rules.accepted).spec <
          (scanNaVocab naV [itemName, lowerStr material]).2
      · rw [hcases.2.1 hA hN hlt]
        simp [hA, hN, hlt]
      · rw [hcases.1 hA hN (Nat.le_of_not_lt hlt)] at h
        simp at h
    | false =>
      rw [hcases.2.2.1 hA hN] at h
      simp at h
  | false =>
    cases hN : (scanNaVocab naV [itemName, lowerStr material]).1 with
    | true =>
      rw [hcases.2.2.2.1 hA hN]
      simp [hA]
    | false =>
      rw [hcases.2.2.2.2 hA hN] at h
      simp at h

set_option maxRecDepth 100000 in
/-- Witness for C7 (amended): "glass mirror"/"mirrors" loses the conflict
on the accepted side (specificity 5 < 7) and the reason comes from the
overlapping Rules entry "Mirrors". -/
theorem c7_not_recyclable_reason_witness :
    (classifyMaterial rulesM (acceptedVocab rulesM) (notAcceptedVocab rulesM)
      "glass mirror" "mirrors").reason =
      some (if (scanAcceptedVocab (acceptedVocab rulesM)
                  ["glass mirror", lowerStr "mirrors"] rulesM.accepted).isAccepted
               && (scanNaVocab (notAcceptedVocab rulesM) ["glass mirror", lowerStr "mirrors"]).1
               && decide ((scanAcceptedVocab (acceptedVocab rulesM)
                    ["glass mirror", lowerStr "mirrors"] rulesM.accepted).spec <
                    (scanNaVocab (notAcceptedVocab rulesM) ["glass mirror", lowerStr "mirrors"]).2)
            then jsOrD ((findNaRule rulesM.not_accepted "glass mirror" (lowerStr "mirrors")).map
                   RuleEntry.notes) "Not accepted in curbside recycling"
            else "Not accepted in curbside recycling") :=
  c7_not_recyclable_reason rulesM (acceptedVocab rulesM) (notAcceptedVocab rulesM)
    "glass mirror" "mirrors" (by decide)

set_option maxRecDepth 100000 in
/-- C8 counterexample: "Cardboard" is discovered at the first result (whose
context contains no instruction keyword, so no note is written there), and
the batch note "Flatten" is written while processing the second result —
so the note is not written at the first result in which the material is
discovered. -/
theorem c8_note_first_discovery_cex :
    (mapFind (scanAll [r1c8]).acc "Cardboard").isSome = true ∧
    mapFind (scanAll [r1c8]).notes "Cardboard" = none ∧
    mapFind (scanAll [r1c8, r2c8]).notes "Cardboard" = some "Flatten" := by
  decide

/-- C8 (amended): once a care note has been recorded for a canonical
material, processing further results never overwrites or changes it; the
note may however be first written at a later result than the one in which
the material is first discovered. -/
theorem c8_notes_never_overwritten (rs1 rs2 : List SearchResult) (k v : String)
    (h : mapFind (scanAll rs1).notes k = some v) :
    mapFind (scanAll (rs1 ++ rs2)).notes k = some v := by
  unfold scanAll at h ⊢
  rw [List.foldl_append]
  apply foldl_inv (P := fun st : ScanSt => mapFind st.notes k = some v) _ _ _ h
  intro s r hs
  exact scanResult_notes hs

set_option maxRecDepth 100000 in
/-- Witness for C8 (amended): the note "Flatten" recorded for "Cardboard"
survives a later result whose context mentions "rinse". -/
theorem c8_notes_never_overwritten_witness :
    mapFind (scanAll ([r2c8] ++ [r3c8])).notes "Cardboard" = some "Flatten" :=
  c8_notes_never_overwritten [r2c8] [r3c8] "Cardboard" "Flatten" (by decide)

set_option maxRecDepth 1000000 in
set_option maxHeartbeats 2000000 in
/-- C2: the detected item `{name: "plastic bottle", materials: ["plastic"]}`
against Rules whose accepted list contains "Plastic Bottles" (the global
not-accepted taxonomy containing "Plastic Bags") classifies the material
`recyclable`: the accepted match "plastic bottle" vs "plastic bottles"
(specificity 14) beats the not-accepted match "plastic" vs "plastic bags"
(specificity 7). -/
theorem c2_plastic_bottle_scenario :
    ((compareMaterials (DetectedInput.arr [itemC2]) rulesC2).items.map ItemComp.materials =
      [[⟨"plastic", "recyclable", none, none⟩]]) ∧
    (scanAcceptedVocab (acceptedVocab rulesC2) ["plastic bottle", lowerStr "plastic"]
        rulesC2.accepted).spec = 14 ∧
    (scanNaVocab (notAcceptedVocab rulesC2) ["plastic bottle", lowerStr "plastic"]).2 = 7 ∧
    "plastic bags" ∈ notAcceptedVocab rulesC2 ∧
    Nat.min "plastic bottle".length "plastic bottles".length = 14 ∧
    Nat.min "plastic".length "plastic bags".length = 7 := by
  decide

set_option maxRecDepth 1000000 in
set_option maxHeartbeats 2000000 in
/-- C9: on the single snippet "please rinse plastic bottles before
recycling; plastic bags are not accepted", `extractRules` puts a
"Plastic Bottles" entry whose note mentions "rinse" into the accepted list
and a "Plastic Bags" entry into the not-accepted list. -/
theorem c9_round_trip :
    (∃ e ∈ (extractRules "90210" [r9]).accepted,
        e.material = "Plastic Bottles" ∧ strIncludes (lowerStr e.notes) "rinse" = true) ∧
    (∃ e ∈ (extractRules "90210" [r9]).not_accepted, e.material = "Plastic Bags") := by
  decide

/-- C6: the accepted and not-accepted lists of an `extractRules` result
never share a canonical material name (the two taxonomy partitions have
disjoint canonical names, and the placeholder name is in neither). -/
theorem c6_never_both (zip : String) (results : List SearchResult) (e1 e2 : CleanEntry)
    (h1 : e1 ∈ (extractRules zip results).accepted)
    (h2 : e2 ∈ (extractRules zip results).not_accepted) :
    e1.material ≠ e2.material := by
  have hd : ∀ a ∈ "See sources below" :: acceptedDB.map Prod.fst,
      ∀ b ∈ notAcceptedDB.map Prod.fst, a ≠ b := by decide
  have hm1 : e1.material ∈ "See sources below" :: acceptedDB.map Prod.fst := by
    rcases mem_extractRules_accepted h1 with rfl | ⟨p, hp, hmat, _⟩
    · exact List.mem_cons_self _ _
    · rw [hmat]
      exact List.mem_cons_of_mem _ (((scanAll_inv results).1 p hp).1)
  have hm2 : e2.material ∈ notAcceptedDB.map Prod.fst := by
    rcases mem_extractRules_na h2 with ⟨p, hp, hmat, _⟩
    rw [hmat]
    exact ((scanAll_inv results).2.2.1 p hp).1
  exact hd _ hm1 _ hm2

set_option maxRecDepth 1000000 in
set_option maxHeartbeats 2000000 in
/-- Witness for C6 on a snippet mentioning glass and banning plastic bags. -/
theorem c6_never_both_witness :
    (⟨"Glass", "Verify with local guidelines", "medium"⟩ : CleanEntry).material ≠
      (⟨"Plastic Bags", "Check local drop-off options", "medium"⟩ : CleanEntry).material :=
  c6_never_both "1" [rW6] ⟨"Glass", "Verify with local guidelines", "medium"⟩
    ⟨"Plastic Bags", "Check local drop-off options", "medium"⟩ (by decide) (by decide)

/-- C4: a material entry produced by `extractRules` has confidence `high`
exactly when its canonical material was recorded from at least 2 distinct
source URLs, `medium` otherwise; `low` appears only on the "See sources
below" placeholder; and the recorded URL sets are duplicate-free. -/
theorem c4_confidence_iff_two_sources (zip : String) (results : List SearchResult)
    (e : CleanEntry) :
    (e ∈ (extractRules zip results).accepted → e.material ≠ "See sources below" →
      e.confidence =
        (if 2 ≤ (acceptedUrls results e.material).length then "high" else "medium")) ∧
    (e ∈ (extractRules zip results).not_accepted →
      e.confidence =
        (if 2 ≤ (notAcceptedUrls results e.material).length then "high" else "medium")) ∧
    (e ∈ (extractRules zip results).accepted → e.confidence = "low" →
      e.material = "See sources below") ∧
    (∀ m : String, (acceptedUrls results m).Nodup ∧ (notAcceptedUrls results m).Nodup) := by
  obtain ⟨hacc, haccK, hna, hnaK⟩ := scanAll_inv results
  refine ⟨?_, ?_, ?_, ?_⟩
  · intro h hne
    rcases mem_extractRules_accepted h with rfl | ⟨p, hp, hmat, hconf⟩
    · exact absurd rfl hne
    · have hfind : mapFind (scanAll results).acc p.1 = some p.2 :=
        mapFind_of_mem_nodup hp haccK
      rw [hconf]
      unfold acceptedUrls
      rw [hmat, hfind]
      rfl
  · intro h
    rcases mem_extractRules_na h with ⟨p, hp, hmat, hconf⟩
    have hfind : mapFind (scanAll results).na p.1 = some p.2 :=
      mapFind_of_mem_nodup hp hnaK
    rw [hconf]
    unfold notAcceptedUrls
    rw [hmat, hfind]
    rfl
  · intro h hlow
    rcases mem_extractRules_accepted h with rfl | ⟨p, hp, hmat, hconf⟩
    · rfl
    · exfalso
      rw [hconf] at hlow
      by_cases h2 : 2 ≤ p.2.length
      · rw [if_pos h2] at hlow
        exact absurd hlow (by decide)
      · rw [if_neg h2] at hlow
        exact absurd hlow (by decide)
  · intro m
    constructor
    · unfold acceptedUrls
      cases hf : mapFind (scanAll results).acc m with
      | none => simp
      | some urls =>
        simp only [mapFind, Option.map_eq_some'] at hf
        obtain ⟨p, hfind, hp2⟩ := hf
        have hpmem := List.mem_of_find?_eq_some hfind
        show urls.Nodup
        exact hp2 ▸ (hacc p hpmem).2
    · unfold notAcceptedUrls
      cases hf : mapFind (scanAll results).na m with
      | none => simp
      | some urls =>
        simp only [mapFind, Option.map_eq_some'] at hf
        obtain ⟨p, hfind, hp2⟩ := hf
        have hpmem := List.mem_of_find?_eq_some hfind
        show urls.Nodup
        exact hp2 ▸ (hna p hpmem).2

set_option maxRecDepth 1000000 in
set_option maxHeartbeats 2000000 in
/-- Witness for C4: the single-source material "Glass" carries
confidence `medium`. -/
theorem c4_confidence_iff_two_sources_witness :
    eW.confidence = (if 2 ≤ (acceptedUrls [rW] eW.material).length then "high" else "medium") :=
  (c4_confidence_iff_two_sources "1" [rW] eW).1 (by decide) (by decide)

end RecycleLocal
